import Mathlib

/-!
Shallow embedding of the CSV ingestion and normalization logic of
`src/components/ProductInputForm.tsx` (the `parseCsv` helper, the
competitor-column toggle handler and the CSV branch of `handleSubmit`),
together with the data shapes of `src/types.ts`.

Strings are modelled as Lean `String`s (lists of characters); JavaScript
numbers are modelled as rationals, which is exact for every decimal
literal `parseFloat` meets here.  JavaScript objects used as row maps are
modelled as insertion-ordered association lists with overwrite-on-assign,
matching object key semantics.
-/

namespace ProductGenie

/-! ### Character classes and basic string helpers -/

/-- Whitespace characters removed by JavaScript `String.prototype.trim`
(restricted to the code points that can occur in this pipeline). -/
def isWsChar (c : Char) : Bool :=
  c == ' ' || c == '\t' || c == '\n' || c == '\r' || c.toNat == 11 || c.toNat == 12

/-- Trim on character lists: drop whitespace from both ends. -/
def trimL (l : List Char) : List Char :=
  ((l.dropWhile isWsChar).reverse.dropWhile isWsChar).reverse

/-- JavaScript `s.trim()`. -/
def jsTrim (s : String) : String := ⟨trimL s.data⟩

/-- Characters kept by `replace(/[^0-9.-]+/g, "")`: digits, `.` and `-`. -/
def isPriceChar (c : Char) : Bool := c.isDigit || c == '.' || c == '-'

/-- `(cell).replace(/[^0-9.-]+/g, "")`: delete every character that is not
a digit, `.` or `-`. -/
def stripPrice (s : String) : String := ⟨s.data.filter isPriceChar⟩

/-! ### `parseFloat`

JavaScript `parseFloat` parses the longest prefix of the string that is a
valid decimal literal and ignores the rest; it yields `NaN` (here `none`)
when no prefix parses.  The strings it receives in this program are
outputs of `stripPrice`, so they contain only digits, `.` and `-`; the
model below covers exactly the grammar reachable from that alphabet
(optional sign, then `digits [. digits]` or `. digits`; no exponent, no
`Infinity`, no leading whitespace can occur). -/

/-- Value of a digit string read in base 10. -/
def digitsVal (l : List Char) : ℕ :=
  l.foldl (fun a c => 10 * a + (c.toNat - 48)) 0

/-- Longest-prefix parse of an unsigned decimal literal.  The value
`intPart.fracPart` is the exact rational
`(intPart * 10^k + fracPart) / 10^k` with `k` fraction digits, built
with `Rat.divInt` so it evaluates by kernel reduction. -/
def parseFloatCore (l : List Char) : Option ℚ :=
  let ip := l.takeWhile Char.isDigit
  let r1 := l.dropWhile Char.isDigit
  match ip, r1 with
  | [], '.' :: r2 =>
      let fp := r2.takeWhile Char.isDigit
      if fp = [] then none
      else some (Rat.divInt (digitsVal fp) (10 ^ fp.length))
  | [], _ => none
  | _, '.' :: r2 =>
      let fp := r2.takeWhile Char.isDigit
      some (Rat.divInt (digitsVal ip * 10 ^ fp.length + digitsVal fp) (10 ^ fp.length))
  | _, _ => some (Rat.divInt (digitsVal ip) 1)

/-- JavaScript `parseFloat`, restricted to the alphabet `[0-9.-]` it is
applied to in `handleSubmit` (plus a `+` sign for completeness). -/
def parseFloatQ (s : String) : Option ℚ :=
  match s.data with
  | '-' :: r => (parseFloatCore r).map Rat.neg
  | '+' :: r => parseFloatCore r
  | l => parseFloatCore l

/-! ### CSV line splitting

The source splits data rows with
`row.split(/,(?=(?:(?:[^"]*"){2})*[^"]*$)/)`: a comma is a separator
exactly when the rest of the line after it contains an even number of
double quotes. -/

/-- Number of double-quote characters in a list. -/
def countQ : List Char → ℕ
  | [] => 0
  | c :: r => (if c = '"' then 1 else 0) + countQ r

/-- Splitter for the regex `,(?=(?:(?:[^"]*"){2})*[^"]*$)`: returns the
first field and the remaining fields. -/
def splitRegexAux : List Char → List Char × List (List Char)
  | [] => ([], [])
  | c :: r =>
    if c = ',' ∧ countQ r % 2 = 0 then
      ([], (splitRegexAux r).1 :: (splitRegexAux r).2)
    else
      (c :: (splitRegexAux r).1, (splitRegexAux r).2)

/-- `row.split(regex)` of the source: split on each comma followed by an
even number of double quotes. -/
def splitQuoteAware (l : List Char) : List (List Char) :=
  (splitRegexAux l).1 :: (splitRegexAux l).2

/-- Modelled from the spec: a two-state scanner that splits on commas not
enclosed in a double-quote pair ("split on commas that are not enclosed
in a double-quote pair").  Used only to compare against the source's
regex splitter `splitQuoteAware`. -/
def splitSMAux : Bool → List Char → List Char × List (List Char)
  | _, [] => ([], [])
  | inQ, c :: r =>
    if c = ',' ∧ inQ = false then
      ([], (splitSMAux false r).1 :: (splitSMAux false r).2)
    else
      (c :: (splitSMAux (if c = '"' then !inQ else inQ) r).1,
       (splitSMAux (if c = '"' then !inQ else inQ) r).2)

/-- Modelled from the spec: split a line on commas outside quotes,
starting outside a quoted field. -/
def splitOutsideQuotes (l : List Char) : List (List Char) :=
  (splitSMAux false l).1 :: (splitSMAux false l).2

/-- `val.replace(/^"|"$/g, '')`, leading-quote half: one leading double
quote is removed if present. -/
def dropLeadQ : List Char → List Char
  | '"' :: r => r
  | l => l

/-- `val.replace(/^"|"$/g, '')`, trailing-quote half: one trailing double
quote is removed if present (the same character is never removed twice,
matching the left-to-right global replace). -/
def dropTrailQ (l : List Char) : List Char :=
  if l.getLast? = some '"' then l.dropLast else l

/-- `val => val.trim().replace(/^"|"$/g, '')` applied to each raw field. -/
def cleanCell (l : List Char) : String := ⟨dropTrailQ (dropLeadQ (trimL l))⟩

/-! ### Row objects -/

/-- A JavaScript object used as a row map: insertion-ordered association
list with string keys. -/
abbrev Row := List (String × String)

/-- `obj[k] = v`: overwrite the value in place if the key is present
(insertion order preserved), otherwise append a new entry. -/
def assign : Row → String → String → Row
  | [], k, v => [(k, v)]
  | p :: t, k, v => if p.1 = k then (k, v) :: t else p :: assign t k v

/-- `obj[k]`: `some` value when the key is present, `none` (undefined)
otherwise. -/
def rlookup : Row → String → Option String
  | [], _ => none
  | p :: t, k => if p.1 = k then some p.2 else rlookup t k

/-- `headers.reduce((obj, header, index) => { obj[header] = values[index] || ''; ... }, {})`,
with the running column index made explicit. -/
def buildRowAux (values : List String) : ℕ → Row → List String → Row
  | _, obj, [] => obj
  | i, obj, h :: hs => buildRowAux values (i + 1) (assign obj h (values.getD i "")) hs

/-- Build one row map from the header list and the split cell values. -/
def buildRow (headers values : List String) : Row :=
  buildRowAux values 0 [] headers

/-! ### `parseCsv` -/

/-- Result of a successful parse: header list and row-map list. -/
structure RawCsvTable where
  headers : List String
  rows : List Row
deriving DecidableEq

/-- `text.replace(/\r\n/g, '\n')`: left-to-right non-overlapping
replacement of CRLF by LF. -/
def normNewlines : List Char → List Char
  | '\r' :: '\n' :: r => '\n' :: normNewlines r
  | c :: r => c :: normNewlines r
  | [] => []

/-- `text.replace(/\r\n/g,'\n').split('\n').map(row => row.trim()).filter(row => row)`:
normalize line endings, split into lines, trim each, drop blanks. -/
def preprocess (text : String) : List (List Char) :=
  (((normNewlines text.data).splitOn '\n').map trimL).filter (fun l => !l.isEmpty)

/-- `headerRow.split(',').map(h => h.trim())` (plain comma split for the
header row). -/
def parseHeaders (l : List Char) : List String :=
  (l.splitOn ',').map (fun h => (⟨trimL h⟩ : String))

/-- `row.split(regex).map(val => val.trim().replace(/^"|"$/g, ''))`. -/
def parseRowValues (l : List Char) : List String :=
  (splitQuoteAware l).map cleanCell

/-- The pure text-processing body of `parseCsv`: fails when fewer than two
non-blank lines remain, otherwise produces the header list and one row
map per data line. -/
def parseCsv (text : String) : Except String RawCsvTable :=
  match preprocess text with
  | [] => .error "CSV file must contain a header row and at least one data row."
  | headerRow :: dataRows =>
    if dataRows = [] then
      .error "CSV file must contain a header row and at least one data row."
    else
      let headers := parseHeaders headerRow
      .ok ⟨headers, dataRows.map (fun r => buildRow headers (parseRowValues r))⟩

/-! ### Field mapping and normalization (`handleSubmit`, CSV branch) -/

/-- The `fieldMapping` state: single header names for product name, price
and product URL (empty string = unset), and the selected competitor-URL
headers in the order they were toggled on. -/
structure FieldMapping where
  productName : String
  currentPrice : String
  userProductUrl : String
  competitorUrls : List String
deriving DecidableEq

/-- `CsvProduct` of `src/types.ts`, with the JavaScript number modelled
as a rational. -/
structure CsvProduct where
  productName : String
  currentPrice : ℚ
  userProductUrl : String
  competitorUrls : List String
deriving DecidableEq

/-- `handleCompetitorHeaderToggle`: remove the header from the selection
if present (all occurrences), else append it at the end. -/
def handleCompetitorHeaderToggle (fm : FieldMapping) (header : String) : FieldMapping :=
  { fm with competitorUrls :=
      if header ∈ fm.competitorUrls then
        fm.competitorUrls.filter (fun h => h != header)
      else fm.competitorUrls ++ [header] }

/-- Accumulator of the `csvData.reduce` call in `handleSubmit`. -/
structure NormAcc where
  validProducts : List CsvProduct
  errors : List String
deriving DecidableEq

/-- Error text `Row ${rowNum}: Price is missing.` -/
def mkMissingMsg (rowNum : ℕ) : String :=
  "Row " ++ toString rowNum ++ ": Price is missing."

/-- Error text `Row ${rowNum}: Invalid price value "${cell}".` -/
def mkInvalidMsg (rowNum : ℕ) (raw : String) : String :=
  "Row " ++ toString rowNum ++ ": Invalid price value \"" ++ raw ++ "\"."

/-- Body of the reducer in `handleSubmit` for one row.  `rowNum` is the
1-based human-facing row number (data row index + 2).  An absent or
blank (after trim) product-name cell skips the row; an empty stripped
price string or an unparseable price appends a row error; otherwise a
`CsvProduct` is appended. -/
def normalizeStep (fm : FieldMapping) (rowNum : ℕ) (row : Row) (acc : NormAcc) : NormAcc :=
  match rlookup row fm.productName with
  | none => acc
  | some pn =>
    if jsTrim pn = "" then acc
    else
      let rawPrice := (rlookup row fm.currentPrice).getD ""
      let priceString := stripPrice rawPrice
      if priceString = "" then
        { acc with errors := acc.errors ++ [mkMissingMsg rowNum] }
      else
        match parseFloatQ priceString with
        | none => { acc with errors := acc.errors ++ [mkInvalidMsg rowNum rawPrice] }
        | some price =>
          let urls := (fm.competitorUrls.filterMap (fun h => rlookup row h)).filter
            (fun u => u != "")
          { acc with validProducts := acc.validProducts ++
              [⟨pn, price, (rlookup row fm.userProductUrl).getD "", urls⟩] }

/-- The reduce over all data rows, with the running row number explicit
(the first data row is row 2). -/
def normalizeAux (fm : FieldMapping) : ℕ → NormAcc → List Row → NormAcc
  | _, acc, [] => acc
  | n, acc, row :: rest => normalizeAux fm (n + 1) (normalizeStep fm n row acc) rest

/-- `csvData.reduce(..., { validProducts: [], errors: [] })`. -/
def normalizeRows (fm : FieldMapping) (rows : List Row) : NormAcc :=
  normalizeAux fm 2 ⟨[], []⟩ rows

/-- JavaScript `Array.prototype.join`. -/
def jsJoin (sep : String) : List String → String
  | [] => ""
  | [x] => x
  | x :: xs => x ++ sep ++ jsJoin sep xs

/-- Observable outcome of the CSV branch of `handleSubmit`: which error
message is surfaced, or which product batch is dispatched to `onAnalyze`
(with an optional skipped-rows warning). -/
inductive SubmitOutcome where
  | noFile (msg : String)
  | mappingIncomplete (msg : String)
  | failed (msg : String)
  | dispatched (products : List CsvProduct) (warning : Option String)
deriving DecidableEq

/-- CSV branch of `handleSubmit`: file check, mapping readiness check,
normalization, then either the aggregated failure message (when no row
validated), or dispatch of the valid products together with a warning
when some rows were skipped. -/
def handleCsvSubmit (hasFile : Bool) (fm : FieldMapping) (csvData : List Row) : SubmitOutcome :=
  if !hasFile then .noFile "Please select a CSV file."
  else if fm.productName = "" ∨ fm.currentPrice = "" then
    .mappingIncomplete "You must map columns for 'Product Name' and 'Current Price'."
  else
    let res := normalizeRows fm csvData
    if res.validProducts = [] then
      .failed ("Analysis failed. " ++
        (if res.errors = [] then "The CSV contains no rows that could be analyzed."
         else jsJoin " " res.errors))
    else
      .dispatched res.validProducts
        (if res.errors = [] then none
         else some ("Warning: Skipped " ++ toString res.errors.length ++
           " invalid rows. Reasons: " ++ jsJoin " " res.errors))

/-- Substring occurrence on character lists: `occursIn small big` is true
when `small` occurs contiguously inside `big`. -/
def occursIn (small : List Char) : List Char → Bool
  | [] => small.isEmpty
  | c :: t => small.isPrefixOf (c :: t) || occursIn small t

/-! ## Lemmas about the quote-aware splitter -/

/-- The regex splitter and the in-quotes state machine agree whenever the
quote parity of the remaining input matches the scanner state. -/
theorem splitSMAux_eq_splitRegexAux :
    ∀ (l : List Char) (inQ : Bool),
      countQ l % 2 = (if inQ then 1 else 0) →
      splitSMAux inQ l = splitRegexAux l := by
  intro l
  induction l with
  | nil => intro inQ _; rfl
  | cons c r ih =>
    intro inQ h
    by_cases hc : c = ','
    · subst hc
      have hcnt : countQ r % 2 = (if inQ then 1 else 0) := by
        simpa [countQ] using h
      cases inQ with
      | false =>
        have h0 : countQ r % 2 = 0 := by simpa using hcnt
        simp [splitSMAux, splitRegexAux, ih false h0, h0]
      | true =>
        have h1 : countQ r % 2 = 1 := by simpa using hcnt
        simp [splitSMAux, splitRegexAux, ih true hcnt, h1]
    · by_cases hq : c = '"'
      · subst hq
        have h' : countQ r % 2 = (if !inQ then 1 else 0) := by
          have hh : (1 + countQ r) % 2 = (if inQ then 1 else 0) := by
            simpa [countQ] using h
          cases inQ <;> simp at hh ⊢ <;> omega
        simp [splitSMAux, splitRegexAux, ih (!inQ) h']
      · have hcnt : countQ r % 2 = (if inQ then 1 else 0) := by
          simpa [countQ, hq] using h
        simp [splitSMAux, splitRegexAux, hc, hq, ih inQ hcnt]

/-- C2: for every data line whose double quotes are balanced, the parser
splits only on commas not enclosed in a double-quote pair (the regex
splitter agrees with an inside-quotes/outside-quotes scanner), each value
is trimmed and stripped of one surrounding double-quote pair; in
particular the line `"Pro Camera X1, with stand",499.99,...` yields the
single first field `Pro Camera X1, with stand`. -/
theorem c2_quoted_comma_split (l : List Char) (h : countQ l % 2 = 0) :
    splitQuoteAware l = splitOutsideQuotes l ∧
    parseRowValues ("\"Pro Camera X1, with stand\",499.99,https://competitorA.com/camera-x1".data) =
      ["Pro Camera X1, with stand", "499.99", "https://competitorA.com/camera-x1"] := by
  constructor
  · have heq := splitSMAux_eq_splitRegexAux l false (by simpa using h)
    simp [splitQuoteAware, splitOutsideQuotes, heq]
  · decide

theorem c2_quoted_comma_split_witness :
    countQ "a,\"b,c\",d".data % 2 = 0 ∧
    splitQuoteAware "a,\"b,c\",d".data = splitOutsideQuotes "a,\"b,c\",d".data :=
  ⟨by decide, (c2_quoted_comma_split "a,\"b,c\",d".data (by decide)).1⟩

/-- C5: whenever fewer than 2 non-blank lines remain after CRLF
normalization, line-trimming and blank-line removal, `parseCsv` fails
with the format-error message, and succeeds otherwise; in particular a
CSV with a header row and zero non-blank data rows fails. -/
theorem c5_format_error (text : String) :
    ((preprocess text).length < 2 →
      parseCsv text = .error "CSV file must contain a header row and at least one data row.") ∧
    (2 ≤ (preprocess text).length → ∃ t, parseCsv text = .ok t) ∧
    parseCsv "productName,currentPrice\n\n   \n" =
      .error "CSV file must contain a header row and at least one data row." := by
  refine ⟨?_, ?_, by rfl⟩
  · intro hlt
    match hp : preprocess text with
    | [] => simp [parseCsv, hp]
    | [a] => simp [parseCsv, hp]
    | a :: b :: rest => rw [hp] at hlt; simp at hlt; omega
  · intro hge
    match hp : preprocess text with
    | [] => rw [hp] at hge; simp at hge
    | [a] => rw [hp] at hge; simp at hge
    | a :: b :: rest =>
      refine ⟨⟨parseHeaders a,
        (b :: rest).map (fun r => buildRow (parseHeaders a) (parseRowValues r))⟩, ?_⟩
      simp [parseCsv, hp]

theorem c5_format_error_witness :
    ((preprocess "h1,h2\n\n \n").length < 2 ∧
      parseCsv "h1,h2\n\n \n" =
        .error "CSV file must contain a header row and at least one data row.") ∧
    (2 ≤ (preprocess "a,b\nc,d").length ∧ ∃ t, parseCsv "a,b\nc,d" = .ok t) :=
  ⟨⟨by decide, (c5_format_error "h1,h2\n\n \n").1 (by decide)⟩,
   ⟨by decide, (c5_format_error "a,b\nc,d").2.1 (by decide)⟩⟩

/-- C9: whenever the product-name or price column mapping is empty, CSV
submission is blocked before any row is read: the outcome is the
validation message naming both required fields, it does not depend on
the row data, and no batch is dispatched. -/
theorem c9_mapping_guard (fm : FieldMapping) (rows rows2 : List Row)
    (h : fm.productName = "" ∨ fm.currentPrice = "") :
    handleCsvSubmit true fm rows =
      SubmitOutcome.mappingIncomplete
        "You must map columns for 'Product Name' and 'Current Price'." ∧
    handleCsvSubmit true fm rows = handleCsvSubmit true fm rows2 ∧
    occursIn "Product Name".data
      "You must map columns for 'Product Name' and 'Current Price'.".data = true ∧
    occursIn "Current Price".data
      "You must map columns for 'Product Name' and 'Current Price'.".data = true ∧
    ∀ ps w, handleCsvSubmit true fm rows ≠ SubmitOutcome.dispatched ps w := by
  have hmain : ∀ rs : List Row, handleCsvSubmit true fm rs =
      SubmitOutcome.mappingIncomplete
        "You must map columns for 'Product Name' and 'Current Price'." := by
    intro rs
    unfold handleCsvSubmit
    rw [if_neg (by simp), if_pos h]
  refine ⟨hmain rows, (hmain rows).trans (hmain rows2).symm, by decide, by decide, ?_⟩
  intro ps w hcon
  rw [hmain rows] at hcon
  exact SubmitOutcome.noConfusion hcon

theorem c9_mapping_guard_witness :
    ((FieldMapping.mk "" "price" "" []).productName = "" ∨
      (FieldMapping.mk "" "price" "" []).currentPrice = "") ∧
    handleCsvSubmit true (FieldMapping.mk "" "price" "" []) [[("a", "b")]] =
      SubmitOutcome.mappingIncomplete
        "You must map columns for 'Product Name' and 'Current Price'." :=
  ⟨Or.inl rfl,
   (c9_mapping_guard (FieldMapping.mk "" "price" "" []) [[("a", "b")]] [] (Or.inl rfl)).1⟩

/-- C1: for every data row whose mapped product-name cell is non-blank,
the normalizer strips every character that is not a digit, `.` or `-`
from the mapped price cell and parses the remainder as a number, the
resulting product carrying exactly that parsed value; with headers
`productName,currentPrice` mapped to themselves, the row `Widget,$19.99`
yields a `CsvProduct` with name `Widget` and price `19.99`. -/
theorem c1_price_normalization (fm : FieldMapping) (rowNum : ℕ) (row : Row)
    (acc : NormAcc) (pn : String) (p : ℚ)
    (hpn : rlookup row fm.productName = some pn) (hnb : jsTrim pn ≠ "")
    (hp : parseFloatQ (stripPrice ((rlookup row fm.currentPrice).getD "")) = some p) :
    normalizeStep fm rowNum row acc =
      { acc with validProducts := acc.validProducts ++
          [⟨pn, p, (rlookup row fm.userProductUrl).getD "",
            (fm.competitorUrls.filterMap (fun h => rlookup row h)).filter
              (fun u => u != "")⟩] } ∧
    parseCsv "productName,currentPrice\nWidget,$19.99" =
      .ok ⟨["productName", "currentPrice"],
           [[("productName", "Widget"), ("currentPrice", "$19.99")]]⟩ ∧
    handleCsvSubmit true ⟨"productName", "currentPrice", "", []⟩
        [[("productName", "Widget"), ("currentPrice", "$19.99")]] =
      .dispatched [⟨"Widget", 1999/100, "", []⟩] none := by
  refine ⟨?_, by rfl, ?_⟩
  case refine_2 =>
    have hq : (1999 / 100 : ℚ) = Rat.divInt 1999 100 := by
      rw [Rat.divInt_eq_div]; norm_num
    rw [hq]
    decide
  have hps : stripPrice ((rlookup row fm.currentPrice).getD "") ≠ "" := by
    intro h0
    rw [h0] at hp
    exact Option.noConfusion hp
  simp only [normalizeStep, hpn]
  rw [if_neg hnb, if_neg hps, hp]

theorem c1_price_normalization_witness :
    rlookup [("productName", "W"), ("currentPrice", "$2")] "productName" = some "W" ∧
    jsTrim "W" ≠ "" ∧
    parseFloatQ (stripPrice ((rlookup [("productName", "W"), ("currentPrice", "$2")]
      "currentPrice").getD "")) = some 2 ∧
    normalizeStep ⟨"productName", "currentPrice", "", []⟩ 2
        [("productName", "W"), ("currentPrice", "$2")] ⟨[], []⟩ =
      ⟨[⟨"W", 2, "", []⟩], []⟩ := by
  refine ⟨by decide, by decide, by decide, ?_⟩
  have h := (c1_price_normalization ⟨"productName", "currentPrice", "", []⟩ 2
    [("productName", "W"), ("currentPrice", "$2")] ⟨[], []⟩ "W" 2
    (by decide) (by decide) (by decide)).1
  simpa using h

/-- C3: a row whose mapped product-name cell is absent or blank is
silently skipped (accumulator unchanged: no product, no error); a row
with a non-blank name whose stripped price string is empty or
unparseable records exactly one row error and contributes no product; in
the concrete CSV the `N/A` row yields `Row 4: Price is missing.` while
the blank-name row yields nothing. -/
theorem c3_blank_skip_and_price_errors :
    (∀ (fm : FieldMapping) (n : ℕ) (row : Row) (acc : NormAcc),
       (∀ pn, rlookup row fm.productName = some pn → jsTrim pn = "") →
       normalizeStep fm n row acc = acc) ∧
    (∀ (fm : FieldMapping) (n : ℕ) (row : Row) (acc : NormAcc) (pn : String),
       rlookup row fm.productName = some pn → jsTrim pn ≠ "" →
       (stripPrice ((rlookup row fm.currentPrice).getD "") = "" ∨
        parseFloatQ (stripPrice ((rlookup row fm.currentPrice).getD "")) = none) →
       ∃ e, normalizeStep fm n row acc =
         { validProducts := acc.validProducts, errors := acc.errors ++ [e] }) ∧
    normalizeRows ⟨"productName", "currentPrice", "", []⟩
        [[("productName", "Widget"), ("currentPrice", "5")],
         [("productName", ""), ("currentPrice", "3")],
         [("productName", "Gadget"), ("currentPrice", "N/A")]] =
      ⟨[⟨"Widget", 5, "", []⟩], ["Row 4: Price is missing."]⟩ := by
  refine ⟨?_, ?_, by decide⟩
  · intro fm n row acc hblank
    cases hl : rlookup row fm.productName with
    | none => simp only [normalizeStep, hl]
    | some pn => simp only [normalizeStep, hl, if_pos (hblank pn hl)]
  · intro fm n row acc pn hpn hnb hbad
    by_cases hps : stripPrice ((rlookup row fm.currentPrice).getD "") = ""
    · refine ⟨mkMissingMsg n, ?_⟩
      simp only [normalizeStep, hpn]
      rw [if_neg hnb, if_pos hps]
    · have hnone : parseFloatQ (stripPrice ((rlookup row fm.currentPrice).getD "")) = none := by
        rcases hbad with h0 | h0
        · exact absurd h0 hps
        · exact h0
      refine ⟨mkInvalidMsg n ((rlookup row fm.currentPrice).getD ""), ?_⟩
      simp only [normalizeStep, hpn]
      rw [if_neg hnb, if_neg hps, hnone]

theorem c3_blank_skip_and_price_errors_witness :
    (∀ pn, rlookup [("productName", " "), ("currentPrice", "3")] "productName" = some pn →
       jsTrim pn = "") ∧
    normalizeStep ⟨"productName", "currentPrice", "", []⟩ 3
        [("productName", " "), ("currentPrice", "3")] ⟨[], []⟩ = ⟨[], []⟩ ∧
    (∃ e, normalizeStep ⟨"productName", "currentPrice", "", []⟩ 4
        [("productName", "Gadget"), ("currentPrice", "N/A")] ⟨[], []⟩ =
      { validProducts := ([] : List CsvProduct), errors := ([] : List String) ++ [e] }) := by
  refine ⟨by decide, ?_, ?_⟩
  · exact c3_blank_skip_and_price_errors.1 ⟨"productName", "currentPrice", "", []⟩ 3
      [("productName", " "), ("currentPrice", "3")] ⟨[], []⟩ (by decide)
  · exact c3_blank_skip_and_price_errors.2.1 ⟨"productName", "currentPrice", "", []⟩ 4
      [("productName", "Gadget"), ("currentPrice", "N/A")] ⟨[], []⟩ "Gadget"
      (by decide) (by decide) (Or.inl (by decide))

/-! ## Substring lemmas for error-message aggregation -/

theorem strData_append (a b : String) : (a ++ b).data = a.data ++ b.data := rfl

theorem isPrefixOf_append_self (s r : List Char) : s.isPrefixOf (s ++ r) = true := by
  induction s with
  | nil => simp [List.isPrefixOf]
  | cons c t ih => simp [List.isPrefixOf, ih]

theorem occursIn_append_self (s r : List Char) : occursIn s (s ++ r) = true := by
  cases s with
  | nil => cases r <;> simp [occursIn, List.isPrefixOf]
  | cons c t => simp [occursIn, isPrefixOf_append_self]

theorem occursIn_append_left (s t a : List Char) (h : occursIn s t = true) :
    occursIn s (a ++ t) = true := by
  induction a with
  | nil => simpa using h
  | cons c r ih => simp [occursIn, ih]

theorem occursIn_jsJoin (e : String) (sep : String) (l : List String) (he : e ∈ l) :
    occursIn e.data (jsJoin sep l).data = true := by
  induction l with
  | nil => cases he
  | cons x xs ih =>
    cases he with
    | head =>
      cases xs with
      | nil => simpa [jsJoin] using occursIn_append_self e.data []
      | cons y ys =>
        have h0 := occursIn_append_self e.data (sep.data ++ (jsJoin sep (y :: ys)).data)
        simpa [jsJoin, strData_append, List.append_assoc] using h0
    | tail _ hmem =>
      cases xs with
      | nil => cases hmem
      | cons y ys =>
        have h1 := occursIn_append_left e.data (jsJoin sep (y :: ys)).data
          (x.data ++ sep.data) (ih hmem)
        simpa [jsJoin, strData_append, List.append_assoc] using h1

/-- C4: whenever normalization yields no valid product, the CSV branch of
`handleSubmit` surfaces the aggregated failure message — containing every
accumulated row error, or the generic empty-batch text when there are
none — and dispatches nothing. -/
theorem c4_no_valid_rows (fm : FieldMapping) (rows : List Row)
    (hready : ¬(fm.productName = "" ∨ fm.currentPrice = ""))
    (h : (normalizeRows fm rows).validProducts = []) :
    handleCsvSubmit true fm rows =
      SubmitOutcome.failed ("Analysis failed. " ++
        (if (normalizeRows fm rows).errors = []
         then "The CSV contains no rows that could be analyzed."
         else jsJoin " " (normalizeRows fm rows).errors)) ∧
    (∀ e ∈ (normalizeRows fm rows).errors, ∃ msg,
       handleCsvSubmit true fm rows = SubmitOutcome.failed msg ∧
       occursIn e.data msg.data = true) ∧
    ∀ ps w, handleCsvSubmit true fm rows ≠ SubmitOutcome.dispatched ps w := by
  have hmain : handleCsvSubmit true fm rows =
      SubmitOutcome.failed ("Analysis failed. " ++
        (if (normalizeRows fm rows).errors = []
         then "The CSV contains no rows that could be analyzed."
         else jsJoin " " (normalizeRows fm rows).errors)) := by
    unfold handleCsvSubmit
    rw [if_neg (by simp), if_neg hready, if_pos h]
  refine ⟨hmain, ?_, ?_⟩
  · intro e he
    have hne : (normalizeRows fm rows).errors ≠ [] := by
      intro h0
      rw [h0] at he
      cases he
    refine ⟨_, hmain, ?_⟩
    rw [if_neg hne, strData_append]
    exact occursIn_append_left _ _ _ (occursIn_jsJoin e " " _ he)
  · intro ps w hcon
    rw [hmain] at hcon
    exact SubmitOutcome.noConfusion hcon

theorem c4_no_valid_rows_witness :
    ¬((("n" : String) = "") ∨ (("p" : String) = "")) ∧
    (normalizeRows ⟨"n", "p", "", []⟩ [[("n", "X"), ("p", "N/A")]]).validProducts = [] ∧
    handleCsvSubmit true ⟨"n", "p", "", []⟩ [[("n", "X"), ("p", "N/A")]] =
      SubmitOutcome.failed "Analysis failed. Row 2: Price is missing." := by
  refine ⟨by decide, by decide, ?_⟩
  have h := (c4_no_valid_rows ⟨"n", "p", "", []⟩ [[("n", "X"), ("p", "N/A")]]
    (by decide) (by decide)).1
  simpa using h

/-! ## Membership lemmas for normalized products -/

theorem jsTrim_empty : jsTrim "" = "" := rfl

theorem mem_normalizeStep (fm : FieldMapping) (n : ℕ) (row : Row) (acc : NormAcc)
    (p : CsvProduct) (hp : p ∈ (normalizeStep fm n row acc).validProducts) :
    p ∈ acc.validProducts ∨
      (p.productName ≠ "" ∧ ∀ u ∈ p.competitorUrls, u ≠ "") := by
  cases hl : rlookup row fm.productName with
  | none =>
    simp only [normalizeStep, hl] at hp
    exact Or.inl hp
  | some pn =>
    by_cases hb : jsTrim pn = ""
    · simp only [normalizeStep, hl, if_pos hb] at hp
      exact Or.inl hp
    · by_cases hps : stripPrice ((rlookup row fm.currentPrice).getD "") = ""
      · simp only [normalizeStep, hl, if_neg hb, if_pos hps] at hp
        exact Or.inl hp
      · cases hpf : parseFloatQ (stripPrice ((rlookup row fm.currentPrice).getD "")) with
        | none =>
          simp only [normalizeStep, hl, if_neg hb, if_neg hps, hpf] at hp
          exact Or.inl hp
        | some price =>
          simp only [normalizeStep, hl, if_neg hb, if_neg hps, hpf] at hp
          rcases List.mem_append.mp hp with h1 | h2
          · exact Or.inl h1
          · right
            rw [List.mem_singleton] at h2
            subst h2
            refine ⟨?_, ?_⟩
            · intro h0
              apply hb
              have h0' : pn = "" := h0
              rw [h0']
              decide
            · intro u hu
              have hu' : u ∈ List.filter (fun u => u != "")
                  (List.filterMap (fun h => rlookup row h) fm.competitorUrls) := hu
              have := (List.mem_filter.mp hu').2
              simpa using this

theorem mem_normalizeAux (fm : FieldMapping) :
    ∀ (rows : List Row) (n : ℕ) (acc : NormAcc) (p : CsvProduct),
      p ∈ (normalizeAux fm n acc rows).validProducts →
      p ∈ acc.validProducts ∨
        (p.productName ≠ "" ∧ ∀ u ∈ p.competitorUrls, u ≠ "")
  | [], _, _, _, hp => Or.inl hp
  | row :: rest, n, acc, p, hp => by
    rcases mem_normalizeAux fm rest (n + 1) (normalizeStep fm n row acc) p hp with h1 | h2
    · exact mem_normalizeStep fm n row acc p h1
    · exact Or.inr h2

/-- C7 counterexample: the claimed data-model invariant
"currentPrice is a finite non-negative number" fails on the code: a price
cell `-5` passes stripping and `parseFloat` unchanged, so the row is
accepted with a negative `currentPrice`. -/
theorem c7_nonnegative_counterexample :
    parseCsv "productName,currentPrice\nX,-5" =
      .ok ⟨["productName", "currentPrice"],
           [[("productName", "X"), ("currentPrice", "-5")]]⟩ ∧
    (normalizeRows ⟨"productName", "currentPrice", "", []⟩
        [[("productName", "X"), ("currentPrice", "-5")]]).validProducts =
      [⟨"X", -5, "", []⟩] ∧
    ¬(0 ≤ (-5 : ℚ)) := by
  have hq : (-5 : ℚ) = Rat.neg (Rat.divInt 5 1) := by
    have : Rat.neg (Rat.divInt 5 1) = -(Rat.divInt 5 1) := rfl
    rw [this, Rat.divInt_eq_div]
    norm_num
  refine ⟨by rfl, ?_, by norm_num⟩
  rw [hq]
  decide

/-- C7 amended: every `CsvProduct` produced by normalization has a
non-empty `productName` and only non-empty `competitorUrls` entries, and
its `currentPrice` is a (finite) rational — which, contrary to the
original claim, may be negative. -/
theorem c7_product_invariants (fm : FieldMapping) (rows : List Row)
    (p : CsvProduct) (hp : p ∈ (normalizeRows fm rows).validProducts) :
    p.productName ≠ "" ∧ ∀ u ∈ p.competitorUrls, u ≠ "" := by
  rcases mem_normalizeAux fm rows 2 ⟨[], []⟩ p hp with h1 | h2
  · cases h1
  · exact h2

theorem c7_product_invariants_witness :
    (⟨"X", -5, "", []⟩ : CsvProduct) ∈
      (normalizeRows ⟨"productName", "currentPrice", "", []⟩
        [[("productName", "X"), ("currentPrice", "-5")]]).validProducts ∧
    ((⟨"X", -5, "", []⟩ : CsvProduct).productName ≠ "" ∧
      ∀ u ∈ (⟨"X", -5, "", []⟩ : CsvProduct).competitorUrls, u ≠ "") := by
  have hq : (-5 : ℚ) = Rat.neg (Rat.divInt 5 1) := by
    have h0 : Rat.neg (Rat.divInt 5 1) = -(Rat.divInt 5 1) := rfl
    rw [h0, Rat.divInt_eq_div]
    norm_num
  have hmem : (⟨"X", -5, "", []⟩ : CsvProduct) ∈
      (normalizeRows ⟨"productName", "currentPrice", "", []⟩
        [[("productName", "X"), ("currentPrice", "-5")]]).validProducts := by
    rw [hq]
    decide
  exact ⟨hmem, c7_product_invariants _ _ _ hmem⟩

/-! ## Row-object lemmas -/

theorem rlookup_assign (m : Row) (k v k' : String) :
    rlookup (assign m k v) k' = if k' = k then some v else rlookup m k' := by
  induction m with
  | nil =>
    by_cases h : k' = k
    · subst h
      simp [assign, rlookup]
    · have h' : ¬k = k' := fun hh => h hh.symm
      simp [assign, rlookup, h, h']
  | cons p t ih =>
    by_cases hpk : p.1 = k
    · by_cases h : k' = k
      · subst h
        simp [assign, rlookup, hpk]
      · have h' : ¬k = k' := fun hh => h hh.symm
        simp [assign, rlookup, hpk, h, h']
    · by_cases h : k' = k
      · subst h
        simp [assign, rlookup, hpk, ih]
      · simp [assign, rlookup, hpk, h, ih]

theorem rlookup_buildRowAux_of_not_mem (values : List String) :
    ∀ (hs : List String) (i : ℕ) (obj : Row) (h : String), h ∉ hs →
      rlookup (buildRowAux values i obj hs) h = rlookup obj h
  | [], _, _, _, _ => rfl
  | h0 :: hs, i, obj, h, hnm => by
    have h1 : h ∉ hs := fun hh => hnm (List.mem_cons_of_mem _ hh)
    have h2 : h ≠ h0 := fun hh => hnm (hh ▸ List.mem_cons_self _ _)
    rw [buildRowAux, rlookup_buildRowAux_of_not_mem values hs (i + 1) _ h h1,
      rlookup_assign, if_neg h2]

theorem rlookup_buildRowAux_some (values : List String) :
    ∀ (hs : List String) (i : ℕ) (obj : Row) (h : String),
      (h ∈ hs ∨ ∃ v, rlookup obj h = some v) →
      ∃ v, rlookup (buildRowAux values i obj hs) h = some v
  | [], _, obj, h, hmem => by
    rcases hmem with hm | hv
    · cases hm
    · exact hv
  | h0 :: hs, i, obj, h, hmem => by
    rw [buildRowAux]
    by_cases hh : h = h0
    · refine rlookup_buildRowAux_some values hs (i + 1) _ h (Or.inr ?_)
      refine ⟨values.getD i "", ?_⟩
      rw [rlookup_assign, if_pos hh]
    · rcases hmem with hm | ⟨v, hv⟩
      · rcases List.mem_cons.mp hm with h1 | h1
        · exact absurd h1 hh
        · exact rlookup_buildRowAux_some values hs (i + 1) _ h (Or.inl h1)
      · refine rlookup_buildRowAux_some values hs (i + 1) _ h (Or.inr ⟨v, ?_⟩)
        rw [rlookup_assign, if_neg hh]
        exact hv

theorem rlookup_buildRowAux_nodup (values : List String) :
    ∀ (hs : List String) (i : ℕ) (obj : Row), hs.Nodup →
      ∀ (j : ℕ) (hj : j < hs.length),
        rlookup (buildRowAux values i obj hs) (hs.get ⟨j, hj⟩) =
          some (values.getD (i + j) "")
  | [], _, _, _, j, hj => absurd hj (by simp)
  | h0 :: hs, i, obj, hnd, 0, hj => by
    have hnm : h0 ∉ hs := (List.nodup_cons.mp hnd).1
    rw [buildRowAux]
    have hget : (h0 :: hs).get ⟨0, hj⟩ = h0 := rfl
    rw [hget, rlookup_buildRowAux_of_not_mem values hs (i + 1) _ h0 hnm,
      rlookup_assign, if_pos rfl]
    simp
  | h0 :: hs, i, obj, hnd, j + 1, hj => by
    have hnd' : hs.Nodup := (List.nodup_cons.mp hnd).2
    have hj' : j < hs.length := by simpa using hj
    have hrec := rlookup_buildRowAux_nodup values hs (i + 1)
      (assign obj h0 (values.getD i "")) hnd' j hj'
    rw [buildRowAux]
    have hget : (h0 :: hs).get ⟨j + 1, hj⟩ = hs.get ⟨j, hj'⟩ := rfl
    have harith : i + 1 + j = i + (j + 1) := by omega
    rw [hget, hrec, harith]

/-- C8: for every parse, each row map contains an entry for every header
of the header row, and (for duplicate-free headers) the entry for the
`j`-th header is the `j`-th split value, with the empty string
substituted when the row has fewer values than there are headers. -/
theorem c8_row_totality (headers values : List String) :
    (∀ h ∈ headers, ∃ v, rlookup (buildRow headers values) h = some v) ∧
    (headers.Nodup → ∀ (j : ℕ) (hj : j < headers.length),
      rlookup (buildRow headers values) (headers.get ⟨j, hj⟩) =
        some (values.getD j "")) := by
  constructor
  · intro h hm
    exact rlookup_buildRowAux_some values headers 0 [] h (Or.inl hm)
  · intro hnd j hj
    have hrec := rlookup_buildRowAux_nodup values headers 0 [] hnd j hj
    simpa using hrec

theorem c8_row_totality_witness :
    (("b" : String) ∈ ["a", "b", "c"] ∧
      ∃ v, rlookup (buildRow ["a", "b", "c"] ["1"]) "b" = some v) ∧
    (["a", "b", "c"].Nodup ∧
      rlookup (buildRow ["a", "b", "c"] ["1"]) (["a", "b", "c"].get ⟨2, by decide⟩) =
        some "") := by
  refine ⟨⟨by decide, (c8_row_totality ["a", "b", "c"] ["1"]).1 "b" (by decide)⟩,
    ⟨by decide, ?_⟩⟩
  have h := (c8_row_totality ["a", "b", "c"] ["1"]).2 (by decide) 2 (by decide)
  simpa using h

/-! ## Competitor-column selection order -/

/-- Modelled from the spec: competitor-URL extraction "in CSV column
order (the order of the headers in the file)" — iterate the header list
and keep the selected, non-empty cells.  Used only to compare with the
behavior of the source, which iterates the selection list instead. -/
def specCsvOrderUrls (headers sel : List String) (row : Row) : List String :=
  ((headers.filter (fun h => sel.contains h)).filterMap
    (fun h => rlookup row h)).filter (fun u => u != "")

theorem toggle_foldl_append :
    ∀ (hs : List String) (fm : FieldMapping), hs.Nodup →
      (∀ h ∈ hs, h ∉ fm.competitorUrls) →
      (hs.foldl handleCompetitorHeaderToggle fm).competitorUrls =
        fm.competitorUrls ++ hs
  | [], fm, _, _ => by simp
  | h :: t, fm, hnd, hdisj => by
    have hmem : h ∉ fm.competitorUrls := hdisj h (List.mem_cons_self _ _)
    have hstep : handleCompetitorHeaderToggle fm h =
        { fm with competitorUrls := fm.competitorUrls ++ [h] } := by
      simp [handleCompetitorHeaderToggle, hmem]
    have hnd' : t.Nodup := (List.nodup_cons.mp hnd).2
    have hht : h ∉ t := (List.nodup_cons.mp hnd).1
    have hdisj' : ∀ h' ∈ t, h' ∉ fm.competitorUrls ++ [h] := by
      intro h' hh' hc
      rcases List.mem_append.mp hc with hc1 | hc1
      · exact hdisj h' (List.mem_cons_of_mem _ hh') hc1
      · rw [List.mem_singleton] at hc1
        exact hht (hc1 ▸ hh')
    have hrec := toggle_foldl_append t (handleCompetitorHeaderToggle fm h) hnd'
      (by rw [hstep]; exact hdisj')
    rw [List.foldl_cons, hrec, hstep]
    simp

/-- C6 counterexample: the claim requires CSV column order independent of
toggle order, but toggling `B` then `A` stores the selection in toggle
order, so the produced `competitorUrls` are `["b", "a"]`, not the CSV
column order `["a", "b"]`. -/
theorem c6_csv_order_counterexample :
    (handleCompetitorHeaderToggle (handleCompetitorHeaderToggle
        ⟨"n", "p", "", []⟩ "B") "A").competitorUrls = ["B", "A"] ∧
    (normalizeStep ⟨"n", "p", "", ["B", "A"]⟩ 2
        (buildRow ["n", "p", "A", "B"] ["x", "1", "a", "b"]) ⟨[], []⟩).validProducts =
      [⟨"x", Rat.divInt 1 1, "", ["b", "a"]⟩] ∧
    specCsvOrderUrls ["n", "p", "A", "B"] ["B", "A"]
      (buildRow ["n", "p", "A", "B"] ["x", "1", "a", "b"]) = ["a", "b"] ∧
    (["b", "a"] : List String) ≠ ["a", "b"] := by
  exact ⟨by decide, by decide, by decide, by decide⟩

/-- C6 amended: for every validated row, `competitorUrls` consists of
exactly the non-empty cell values of the selected columns in selection
order — the order in which the user toggled the columns on (the stored
selection list) — not CSV column order. -/
theorem c6_selection_order (hs : List String) (fm : FieldMapping)
    (hnd : hs.Nodup) (hdisj : ∀ h ∈ hs, h ∉ fm.competitorUrls) :
    (hs.foldl handleCompetitorHeaderToggle fm).competitorUrls =
      fm.competitorUrls ++ hs ∧
    ∀ (fm' : FieldMapping) (n : ℕ) (row : Row) (acc : NormAcc)
      (pn : String) (price : ℚ),
      rlookup row fm'.productName = some pn → jsTrim pn ≠ "" →
      parseFloatQ (stripPrice ((rlookup row fm'.currentPrice).getD "")) = some price →
      (normalizeStep fm' n row acc).validProducts.map CsvProduct.competitorUrls =
        acc.validProducts.map CsvProduct.competitorUrls ++
          [(fm'.competitorUrls.filterMap (fun h => rlookup row h)).filter
            (fun u => u != "")] := by
  refine ⟨toggle_foldl_append hs fm hnd hdisj, ?_⟩
  intro fm' n row acc pn price hpn hnb hp
  have hps : stripPrice ((rlookup row fm'.currentPrice).getD "") ≠ "" := by
    intro h0
    rw [h0] at hp
    exact Option.noConfusion hp
  simp only [normalizeStep, hpn]
  rw [if_neg hnb, if_neg hps, hp]
  simp

theorem c6_selection_order_witness :
    (["A", "B"] : List String).Nodup ∧
    (∀ h ∈ (["A", "B"] : List String),
      h ∉ (FieldMapping.mk "n" "p" "" []).competitorUrls) ∧
    ((["A", "B"] : List String).foldl handleCompetitorHeaderToggle
      (FieldMapping.mk "n" "p" "" [])).competitorUrls = ["A", "B"] := by
  refine ⟨by decide, by decide, ?_⟩
  have h := (c6_selection_order ["A", "B"] (FieldMapping.mk "n" "p" "" [])
    (by decide) (by decide)).1
  simpa using h

/-! ## Longest-prefix behavior of `parseFloat` -/

theorem takeWhile_digits_append (a : List Char) (x : Char) (y : List Char)
    (ha : ∀ c ∈ a, c.isDigit = true) (hx : x.isDigit = false) :
    (a ++ x :: y).takeWhile Char.isDigit = a ∧
    (a ++ x :: y).dropWhile Char.isDigit = x :: y := by
  induction a with
  | nil => simp [List.takeWhile, List.dropWhile, hx]
  | cons c t ih =>
    have hc : c.isDigit = true := ha c (List.mem_cons_self _ _)
    have ht : ∀ d ∈ t, d.isDigit = true := fun d hd => ha d (List.mem_cons_of_mem _ hd)
    rcases ih ht with ⟨h1, h2⟩
    constructor
    · simpa [List.takeWhile_cons, hc] using h1
    · simpa [List.dropWhile_cons, hc] using h2

/-- C10: `parseFloat` accepts the longest valid numeric prefix of the
stripped price string and ignores trailing characters: a stripped cell
`digits.digits.rest` parses to the value of `digits.digits`, and
`digits-rest` parses to the value of the leading digits; concretely the
rows `A,19.99.50` and `B,1-2` are dispatched without any row error with
prices `19.99` and `1`. -/
theorem c10_longest_prefix_parse :
    (∀ (a b c : List Char), (∀ d ∈ a, d.isDigit = true) →
      (∀ d ∈ b, d.isDigit = true) → a ≠ [] → b ≠ [] →
      parseFloatCore (a ++ '.' :: (b ++ '.' :: c)) =
        some (Rat.divInt (digitsVal a * 10 ^ b.length + digitsVal b) (10 ^ b.length))) ∧
    (∀ (a b : List Char), (∀ d ∈ a, d.isDigit = true) → a ≠ [] →
      parseFloatCore (a ++ '-' :: b) = some (Rat.divInt (digitsVal a) 1)) ∧
    handleCsvSubmit true ⟨"n", "p", "", []⟩
        [[("n", "A"), ("p", "19.99.50")], [("n", "B"), ("p", "1-2")]] =
      .dispatched [⟨"A", Rat.divInt 1999 100, "", []⟩, ⟨"B", Rat.divInt 1 1, "", []⟩]
        none ∧
    Rat.divInt 1999 100 = 1999 / 100 ∧ Rat.divInt 1 1 = 1 := by
  have hdot : ('.' : Char).isDigit = false := by decide
  have hdash : ('-' : Char).isDigit = false := by decide
  refine ⟨?_, ?_, by decide, ?_, ?_⟩
  · intro a b c ha hb hane hbne
    obtain ⟨h1, h2⟩ := takeWhile_digits_append a '.' (b ++ '.' :: c) ha hdot
    obtain ⟨h3, _⟩ := takeWhile_digits_append b '.' c hb hdot
    obtain ⟨d, a', rfl⟩ := List.exists_cons_of_ne_nil hane
    have hmid : parseFloatCore (d :: a' ++ '.' :: (b ++ '.' :: c)) =
        some (Rat.divInt
          (digitsVal (d :: a') * 10 ^ (List.takeWhile Char.isDigit (b ++ '.' :: c)).length
            + digitsVal (List.takeWhile Char.isDigit (b ++ '.' :: c)))
          (10 ^ (List.takeWhile Char.isDigit (b ++ '.' :: c)).length)) := by
      unfold parseFloatCore
      rw [h1, h2]
      rfl
    rw [h3] at hmid
    exact hmid
  · intro a b ha hane
    obtain ⟨h1, h2⟩ := takeWhile_digits_append a '-' b ha hdash
    obtain ⟨d, a', rfl⟩ := List.exists_cons_of_ne_nil hane
    have hmid : parseFloatCore (d :: a' ++ '-' :: b) =
        some (Rat.divInt (digitsVal (d :: a')) 1) := by
      unfold parseFloatCore
      rw [h1, h2]
      rfl
    exact hmid
  · rw [Rat.divInt_eq_div]
    norm_num
  · rw [Rat.divInt_eq_div]
    norm_num

theorem c10_longest_prefix_parse_witness :
    parseFloatCore (['1', '9'] ++ '.' :: (['9', '9'] ++ '.' :: ['5', '0'])) =
      some (Rat.divInt
        (digitsVal ['1', '9'] * 10 ^ (['9', '9'] : List Char).length +
          digitsVal ['9', '9'])
        (10 ^ (['9', '9'] : List Char).length)) ∧
    parseFloatCore (['1'] ++ '-' :: ['2']) = some (Rat.divInt (digitsVal ['1']) 1) :=
  ⟨c10_longest_prefix_parse.1 ['1', '9'] ['9', '9'] ['5', '0']
      (by decide) (by decide) (by decide) (by decide),
   c10_longest_prefix_parse.2.1 ['1'] ['2'] (by decide) (by decide)⟩

end ProductGenie
